import Mathlib

/-!
Verification development for the OpenPGP-style packet codec in
`pgpy/packet/fields.py`: the packet `Header` (tag byte plus a
variable-length body-length field, in both the old and the new wire
encoding) and the `SubPackets` container (a 2-byte length-prefixed run of
subpacket records).

The definitions below are a shallow embedding of that Python source.
Bytes are modelled as `Nat` list entries (each `< 256` on real inputs);
machine integers are `Nat` (Python integers are unbounded, so no masking
is needed beyond what the source itself writes).  The byte/integer
conversion utilities `bytes_to_int` / `int_to_bytes` live in `pgpy.util`,
which is not part of the provided sources, so they are modelled from the
spec (big-endian, total, minimum-width padding).  Likewise the per-record
`SubPacket` decoder lives in `pgpy.packet.subpackets` and is modelled
from the spec's record-decoder contract.
-/

namespace PGPy

/-- Modelled from the spec: `bytesToUint(bytes) -> uint`, the big-endian
byte-sequence to unsigned-integer primitive from `pgpy.util`
(`bytes_to_int`), which is not under the provided sources.  Total on byte
lists; the empty list maps to 0. -/
def bytes_to_int (b : List Nat) : Nat :=
  b.foldl (fun acc c => acc * 256 + c) 0

/-- Big-endian base-256 digits of `n` (most significant first), no
leading zeros; `beDigits 0 = []`.  Written with explicit fuel so that it
computes by kernel reduction; `fuel = n` always suffices. -/
def beDigitsAux : Nat → Nat → List Nat
  | 0, _ => []
  | fuel + 1, n => if n = 0 then [] else beDigitsAux fuel (n / 256) ++ [n % 256]

def beDigits (n : Nat) : List Nat := beDigitsAux n n

/-- Modelled from the spec: `uintToBytes(uint, width?) -> bytes`, the
unsigned-integer to big-endian bytes primitive from `pgpy.util`
(`int_to_bytes(i, minlen=1)`), not under the provided sources.  Produces
`max minlen (number of digits)` bytes, zero-padded on the left; in
particular `int_to_bytes 0 1 = [0]`. -/
def int_to_bytes (i minlen : Nat) : List Nat :=
  List.replicate (minlen - (beDigits i).length) 0 ++ beDigits i

/-- Python `abs(a - b)` on the nonnegative ints that occur in
`Header.__bytes__` (line 176): the absolute difference. -/
def pyAbsSub (a b : Nat) : Nat := if a ≤ b then b - a else a - b

/-- Embedding of `Header.Format` from fields.py: old = 0, new = 1. -/
inductive Format where
  | old
  | new
  deriving DecidableEq

def Format.val : Format → Nat
  | .old => 0
  | .new => 1

/-- Embedding of `Header.Tag` from fields.py, with the enum values of the source. -/
inductive Tag where
  | Invalid
  | Signature
  | PrivKey
  | PrivSubKey
  | PubKey
  | Trust
  | UserID
  | PubSubKey
  deriving DecidableEq

def Tag.val : Tag → Nat
  | .Invalid => 0
  | .Signature => 2
  | .PrivKey => 5
  | .PrivSubKey => 7
  | .PubKey => 6
  | .Trust => 12
  | .UserID => 13
  | .PubSubKey => 14

/-- Python enum construction `Header.Tag(n)`: succeeds exactly on the
declared member values, otherwise raises `ValueError`. -/
def Tag.ofNat? : Nat → Option Tag
  | 0 => some .Invalid
  | 2 => some .Signature
  | 5 => some .PrivKey
  | 6 => some .PubKey
  | 7 => some .PrivSubKey
  | 12 => some .Trust
  | 13 => some .UserID
  | 14 => some .PubSubKey
  | _ => none

/-- The `Header` packet field of fields.py.  `__init__` defaults are
`always_1 = 1`, `format = new`, `tag = Invalid`, `length_type = 0`,
`length = 0`. -/
structure Header where
  always_1 : Nat
  format : Format
  tag : Tag
  length_type : Nat
  length : Nat
  deriving DecidableEq

/-- The exceptions `Header.parse` can raise: `PGPError("Malformed tag!")`
(line 98), `PGPError("Invalid tag!")` (line 144), and the `ValueError`
implicit in constructing `Header.Tag(...)` from a non-member value. -/
inductive ParseError where
  | malformedTag
  | invalidTag
  | valueError
  deriving DecidableEq

/-- Embedding of `Header.parse` from fields.py lines 55-144, translated branch by
branch.  One modelling note: line 139 reads
`if bytes_to_int(packet[1:2] == 255):`; the parenthesisation makes the
argument of `bytes_to_int` the comparison of a bytes object with the int
255, which is always `False` in Python, so the 5-octet branch can never
assign a length the way the surrounding branches do.  It is embedded as
a branch that is never taken (leaving `self.length` untouched), which is
the only reading under which the function returns at all.  Also, in the
2-octet branch the Python subtraction `elen - (192 << 8)` never goes
negative when the 2-byte slice is full (the branch condition forces the
leading byte above 191), which is the only case the claims exercise, so
`Nat` subtraction is faithful there. -/
def Header.parse (packet : List Nat) : Except ParseError Header :=
  let tagByte := bytes_to_int (packet.take 1)
  let always1 := tagByte >>> 7
  if always1 ≠ 1 then Except.error ParseError.malformedTag
  else if (tagByte >>> 6) &&& 1 = 0 then
    -- old style packet header
    match Tag.ofNat? ((tagByte >>> 2) &&& 0xF) with
    | none => Except.error ParseError.valueError
    | some t =>
      let lt := tagByte &&& 0x3
      let pkt :=
        if lt = 0 then packet.take 2
        else if lt = 1 then packet.take 3
        else if lt = 2 then packet.take 6
        else packet.take 1
      let len := if 1 < pkt.length then bytes_to_int (pkt.drop 1) else 0
      if t = Tag.Invalid then Except.error ParseError.invalidTag
      else Except.ok ⟨always1, Format.old, t, lt, len⟩
  else
    -- new style packet header
    match Tag.ofNat? (tagByte &&& 0x3F) with
    | none => Except.error ParseError.valueError
    | some t =>
      let lenByte := bytes_to_int ((packet.drop 1).take 1)
      -- 1 octet length (line 129: strictly `< 191` in the source)
      let len1 := if lenByte < 191 then bytes_to_int ((packet.drop 1).take 1) else 0
      -- 2 octet length (line 133: `223 > x > 191` in the source)
      let len2 :=
        if 223 > lenByte ∧ lenByte > 191 then
          let elen := bytes_to_int ((packet.drop 1).take 2)
          ((elen - (192 <<< 8)) &&& 0xFF00) + ((elen &&& 0xFF) + 192)
        else len1
      -- 5 octet length (line 139): branch never taken, see the doc comment
      if t = Tag.Invalid then Except.error ParseError.invalidTag
      else Except.ok ⟨always1, Format.new, t, 0, len2⟩

/-- The `while` loop of `Header.__bytes__` lines 158-159:
`while self.length >> (8 * (self.length_type + 1)) and self.length_type < 3:
self.length_type += 1`.  Written with fuel so it computes by kernel
reduction; the guard `length_type < 3` bounds the loop at three
iterations, so fuel 4 is exact for every start value. -/
def widenLTAux : Nat → Nat → Nat → Nat
  | 0, _, lt => lt
  | fuel + 1, length, lt =>
    if length >>> (8 * (lt + 1)) ≠ 0 ∧ lt < 3 then widenLTAux fuel length (lt + 1)
    else lt

/-- Embedding of `Header.__bytes__` from fields.py lines 146-181.  The method mutates
`self.length_type` (the widening loop) before serialising, so it is
embedded as returning the updated header together with the bytes.
Line 179 is the source literal `b'x\FF' + int_to_bytes(self.length, 4)`:
in Python `\F` is not an escape sequence, so `b'x\FF'` is the four bytes
`0x78 0x5C 0x46 0x46`. -/
def Header.toBytes (h : Header) : Header × List Nat :=
  let fbyte0 := (h.always_1 <<< 7) + (h.format.val <<< 6)
  match h.format with
  | Format.old =>
    let lt := if h.length_type = 0 then widenLTAux 4 h.length 0 else h.length_type
    let fbyte := fbyte0 + (h.tag.val <<< 2) + lt
    (⟨h.always_1, h.format, h.tag, lt, h.length⟩,
      int_to_bytes fbyte 1 ++ int_to_bytes h.length 1)
  | Format.new =>
    let fbyte := fbyte0 + (h.tag.val &&& 0x3F)
    let lenBytes :=
      if h.length < 192 then int_to_bytes h.length 1
      else if h.length < 8384 then
        int_to_bytes (((h.length &&& 0xFF00) + (192 <<< 8)) + pyAbsSub (h.length &&& 0xFF) 192) 1
      else [0x78, 0x5C, 0x46, 0x46] ++ int_to_bytes h.length 4
    (h, int_to_bytes fbyte 1 ++ lenBytes)

/-- Modelled from the spec: a subpacket record, as produced by the
external record decoder (`pgpy.packet.subpackets.SubPacket`, not under
the provided sources).  Per the spec contract the record exposes a type
and its consumed byte length; `length` is the total wire size of the
record including its one-octet length prefix. -/
structure SubPacket where
  length : Nat
  sptype : Nat
  payload : List Nat
  deriving DecidableEq

/-- Modelled from the spec: the external record decoder,
`decode(slice) -> (record, consumedBytes)`.  The record's one-octet
length prefix counts the type octet plus the payload, so the whole
record occupies `prefix + 1` bytes and the decoder reports exactly that
as its consumed length. -/
def SubPacket.parse (b : List Nat) : SubPacket :=
  ⟨b.headD 0 + 1, (b.drop 1).headD 0, (b.drop 2).take (b.headD 0 - 1)⟩

/-- Modelled from the spec: the record's own encoding
(`subpacket.__bytes__()`), the inverse of `SubPacket.parse` on
well-formed records: length prefix, type octet, payload. -/
def SubPacket.toBytes (sp : SubPacket) : List Nat :=
  (sp.length - 1) :: sp.sptype :: sp.payload

/-- Well-formedness of a record: its stored wire size agrees with its
payload (`consumedBytes and size must agree` in the spec contract) and
its length prefix fits one octet. -/
def SubPacket.wfb (sp : SubPacket) : Bool :=
  (sp.length == sp.payload.length + 2) && decide (sp.length ≤ 256)

/-- The `SubPackets` container of fields.py.  `__init__` defaults:
`length = 0`, `hashed = False`, `subpackets = []`. -/
structure SubPackets where
  length : Nat
  hashed : Bool
  subpackets : List SubPacket
  deriving DecidableEq

/-- The `while pos < self.length` loop of `SubPackets.parse`
(fields.py lines 203-207), parameterised by the record decoder `d` and
written with explicit fuel: the source loop has no termination guarantee
of its own (it advances `pos` by whatever length the decoded record
reports), and exhausted fuel (`none`) corresponds to non-termination of
the Python loop. -/
def spLoop (d : List Nat → SubPacket) (packet : List Nat) (limit : Nat) :
    Nat → List SubPacket → Nat → Option (List SubPacket)
  | pos, acc, 0 => if pos < limit then none else some acc
  | pos, acc, fuel + 1 =>
    if pos < limit then
      let sp := d (packet.drop pos)
      spLoop d packet limit (pos + sp.length) (acc ++ [sp]) fuel
    else some acc

/-- Embedding of `SubPackets.parse` from fields.py lines 199-207: read the 2-byte
prefix, truncate the buffer to the declared region, then decode records
from offset 2.  Fuel `len` always suffices when every record consumes at
least one byte, which the concrete decoder guarantees. -/
def SubPackets.parse (packet : List Nat) : Option SubPackets :=
  let len := bytes_to_int (packet.take 2) + 2
  let pkt := packet.take len
  (spLoop SubPacket.parse pkt len 2 [] len).map (fun sps => ⟨len, false, sps⟩)

/-- Embedding of `SubPackets.__bytes__` from fields.py lines 209-215: the 2-byte
prefix `length - 2`, then each record's encoding in order. -/
def SubPackets.toBytes (c : SubPackets) : List Nat :=
  int_to_bytes (c.length - 2) 2 ++ (c.subpackets.map SubPacket.toBytes).flatten

/-! ### Helper lemmas about the byte/integer primitives -/

theorem bytes_to_int_cons_zero (l : List Nat) : bytes_to_int (0 :: l) = bytes_to_int l := by
  simp [bytes_to_int]

theorem bytes_to_int_replicate_zero_append (z : Nat) (l : List Nat) :
    bytes_to_int (List.replicate z 0 ++ l) = bytes_to_int l := by
  induction z with
  | zero => simp
  | succ n ih => rw [List.replicate_succ, List.cons_append, bytes_to_int_cons_zero, ih]

theorem bytes_to_int_append_singleton (l : List Nat) (c : Nat) :
    bytes_to_int (l ++ [c]) = bytes_to_int l * 256 + c := by
  simp [bytes_to_int, List.foldl_append]

theorem beDigitsAux_sound : ∀ fuel n, n ≤ fuel → bytes_to_int (beDigitsAux fuel n) = n := by
  intro fuel
  induction fuel with
  | zero =>
    intro n h
    have hn : n = 0 := by omega
    subst hn; rfl
  | succ f ih =>
    intro n h
    by_cases h0 : n = 0
    · subst h0; rfl
    · have hdiv : n / 256 ≤ f := by omega
      simp only [beDigitsAux, if_neg h0]
      rw [bytes_to_int_append_singleton, ih _ hdiv]
      omega

theorem beDigits_sound (n : Nat) : bytes_to_int (beDigits n) = n :=
  beDigitsAux_sound n n (Nat.le_refl n)

theorem beDigitsAux_length_le :
    ∀ fuel n k, n ≤ fuel → n < 256 ^ k → (beDigitsAux fuel n).length ≤ k := by
  intro fuel
  induction fuel with
  | zero =>
    intro n k h _
    have hn : n = 0 := by omega
    subst hn; simp [beDigitsAux]
  | succ f ih =>
    intro n k h hk
    by_cases h0 : n = 0
    · subst h0; simp [beDigitsAux]
    · cases k with
      | zero => simp at hk; omega
      | succ k =>
        have hdiv : n / 256 ≤ f := by omega
        have hklt : n / 256 < 256 ^ k := by
          rw [Nat.div_lt_iff_lt_mul (by norm_num : (0:Nat) < 256)]
          calc n < 256 ^ (k + 1) := hk
            _ = 256 ^ k * 256 := by rw [Nat.pow_succ]
        have := ih (n / 256) k hdiv hklt
        simp only [beDigitsAux, if_neg h0, List.length_append, List.length_cons,
          List.length_nil]
        omega

theorem beDigits_length_le (n k : Nat) (h : n < 256 ^ k) : (beDigits n).length ≤ k :=
  beDigitsAux_length_le n n k (Nat.le_refl n) h

theorem int_to_bytes_sound (i w : Nat) : bytes_to_int (int_to_bytes i w) = i := by
  rw [int_to_bytes, bytes_to_int_replicate_zero_append, beDigits_sound]

theorem int_to_bytes_length (i w : Nat) (h : i < 256 ^ w) : (int_to_bytes i w).length = w := by
  have := beDigits_length_le i w h
  simp only [int_to_bytes, List.length_append, List.length_replicate]
  omega

/-! ### Helper lemmas about the record codec and the container loop -/

theorem SubPacket.wfb_iff (sp : SubPacket) :
    sp.wfb = true ↔ sp.length = sp.payload.length + 2 ∧ sp.length ≤ 256 := by
  simp [SubPacket.wfb]

theorem SubPacket.parse_toBytes (sp : SubPacket) (h : sp.wfb = true) (rest : List Nat) :
    SubPacket.parse (sp.toBytes ++ rest) = sp := by
  obtain ⟨hlen, -⟩ := (SubPacket.wfb_iff sp).1 h
  cases sp with
  | mk L t pl =>
    simp only at hlen
    have h2 : List.take (L - 1 - 1) (pl ++ rest) = pl :=
      List.take_left' (show pl.length = L - 1 - 1 by omega)
    simp only [SubPacket.toBytes, SubPacket.parse, List.cons_append, List.headD_cons,
      List.drop_succ_cons, List.drop_zero, h2, SubPacket.mk.injEq, and_true, true_and]
    omega

theorem SubPacket.toBytes_length (sp : SubPacket) (h : sp.wfb = true) :
    sp.toBytes.length = sp.length := by
  obtain ⟨hlen, -⟩ := (SubPacket.wfb_iff sp).1 h
  simp [SubPacket.toBytes]
  omega

theorem flatten_toBytes_length (rs : List SubPacket) (h : ∀ sp ∈ rs, sp.wfb = true) :
    ((rs.map SubPacket.toBytes).flatten).length = (rs.map SubPacket.length).sum := by
  induction rs with
  | nil => simp
  | cons r rest ih =>
    simp only [List.map_cons, List.flatten_cons, List.length_append, List.sum_cons]
    rw [ih (fun sp hsp => h sp (by simp [hsp])), SubPacket.toBytes_length r (h r (by simp))]

theorem count_le_sum (rs : List SubPacket) (h : ∀ sp ∈ rs, sp.wfb = true) :
    rs.length ≤ (rs.map SubPacket.length).sum := by
  induction rs with
  | nil => simp
  | cons r rest ih =>
    have hr := ((SubPacket.wfb_iff r).1 (h r (by simp))).1
    have := ih (fun sp hsp => h sp (by simp [hsp]))
    simp only [List.length_cons, List.map_cons, List.sum_cons]
    omega

theorem spLoop_stuck (d : List Nat → SubPacket) (packet : List Nat) (limit pos : Nat)
    (hlt : pos < limit) (hz : (d (packet.drop pos)).length = 0) :
    ∀ acc fuel, spLoop d packet limit pos acc fuel = none := by
  intro acc fuel
  induction fuel generalizing acc with
  | zero => simp [spLoop, hlt]
  | succ f ih =>
    simp only [spLoop, if_pos hlt, hz, Nat.add_zero]
    exact ih _

theorem spLoop_total (d : List Nat → SubPacket) (hd : ∀ s, 1 ≤ (d s).length)
    (packet : List Nat) (limit : Nat) :
    ∀ fuel pos acc, limit - pos ≤ fuel → (spLoop d packet limit pos acc fuel).isSome = true := by
  intro fuel
  induction fuel with
  | zero =>
    intro pos acc h
    have hnlt : ¬ pos < limit := by omega
    simp [spLoop, hnlt]
  | succ f ih =>
    intro pos acc h
    by_cases hlt : pos < limit
    · simp only [spLoop, if_pos hlt]
      exact ih _ _ (by have := hd (packet.drop pos); omega)
    · simp [spLoop, hlt]

theorem spLoop_parse_concat (rs : List SubPacket) :
    ∀ (packet : List Nat) (limit pos : Nat) (acc : List SubPacket) (fuel : Nat),
      (∀ sp ∈ rs, sp.wfb = true) →
      packet.drop pos = (rs.map SubPacket.toBytes).flatten →
      limit = pos + (rs.map SubPacket.length).sum →
      rs.length ≤ fuel →
      spLoop SubPacket.parse packet limit pos acc fuel = some (acc ++ rs) := by
  induction rs with
  | nil =>
    intro packet limit pos acc fuel _ _ hL _
    simp only [List.map_nil, List.sum_nil, Nat.add_zero] at hL
    have hnlt : ¬ pos < limit := by omega
    cases fuel <;> simp [spLoop, hnlt]
  | cons r rest ih =>
    intro packet limit pos acc fuel hwf hdrop hL hfuel
    cases fuel with
    | zero => simp at hfuel
    | succ f =>
      have hwfr : r.wfb = true := hwf r (by simp)
      have hrlen : r.length = r.payload.length + 2 := ((SubPacket.wfb_iff r).1 hwfr).1
      simp only [List.map_cons, List.sum_cons] at hL
      have hpos : pos < limit := by omega
      have hparse : SubPacket.parse (packet.drop pos) = r := by
        rw [hdrop]
        simp only [List.map_cons, List.flatten_cons]
        exact SubPacket.parse_toBytes r hwfr _
      have hdrop2 : packet.drop (pos + r.length) = (rest.map SubPacket.toBytes).flatten := by
        rw [← List.drop_drop, hdrop]
        simp only [List.map_cons, List.flatten_cons]
        rw [← SubPacket.toBytes_length r hwfr, List.drop_left]
      simp only [spLoop, if_pos hpos, hparse]
      rw [ih packet limit (pos + r.length) (acc ++ [r]) f
        (fun sp hsp => hwf sp (by simp [hsp])) hdrop2 (by omega)
        (by simp at hfuel; omega)]
      simp

/-- Decoder stub for the non-termination half of claim C10: a record
decoder that reports a zero-length record at every position. -/
def zeroRecDec : List Nat → SubPacket := fun _ => ⟨0, 0, []⟩

/-- Decoder stub for the totality half of claim C10: a record decoder
that reports a one-byte record at every position. -/
def oneRecDec : List Nat → SubPacket := fun _ => ⟨1, 0, []⟩

/-! ### Claim theorems -/

/-- Claim C1 (code_bug evaluation): the header round-trip
`decode(encode(h)) = h` fails on the code.  At the valid new-format
header with tag Signature and length 191 (within the 1-octet range the
spec assigns to lengths below 192), `Header.__bytes__` emits `C2 BF`,
but `Header.parse` of those bytes yields length 0, because the 1-octet
decode branch requires the length byte to be strictly below 191 and no
other branch covers 191. -/
theorem header_roundtrip_fails_c1 :
    (Header.toBytes ⟨1, Format.new, Tag.Signature, 0, 191⟩).2 = [194, 191]
    ∧ Header.parse [194, 191] = Except.ok ⟨1, Format.new, Tag.Signature, 0, 0⟩
    ∧ Header.parse ((Header.toBytes ⟨1, Format.new, Tag.Signature, 0, 191⟩).2)
        ≠ Except.ok ⟨1, Format.new, Tag.Signature, 0, 191⟩ :=
  ⟨rfl, rfl, fun hcontra => by
    have : (⟨1, Format.new, Tag.Signature, 0, 0⟩ : Header)
        = ⟨1, Format.new, Tag.Signature, 0, 191⟩ := by
      have h0 : Header.parse [194, 191] = Except.ok ⟨1, Format.new, Tag.Signature, 0, 0⟩ := rfl
      rw [show (Header.toBytes ⟨1, Format.new, Tag.Signature, 0, 191⟩).2 = [194, 191] from rfl,
        h0] at hcontra
      exact (Except.ok.injEq _ _).mp hcontra
    simp at this⟩

/-- Claim C2 (code_bug evaluation): the 1-octet new-format decode branch
uses `< 191` where the claim (and the wire format) says `< 192`.  A
first length byte of 190 decodes to length 190 as claimed, but 191 is
covered by no branch and the header keeps the constructor default
length 0 instead of 191. -/
theorem header_new_one_octet_c2 :
    Header.parse [194, 190] = Except.ok ⟨1, Format.new, Tag.Signature, 0, 190⟩
    ∧ Header.parse [194, 191] = Except.ok ⟨1, Format.new, Tag.Signature, 0, 0⟩
    ∧ (0 : Nat) ≠ 191 :=
  ⟨rfl, rfl, by decide⟩

/-- Claim C3 (code_bug evaluation): the 2-octet new-format decode branch
is guarded by `223 > L1 > 191`, so the first length byte 223 — which the
claim places inside the 2-octet range `[192, 224)` with decoded value
`(223 - 192) * 256 + L2 + 192` — falls through every branch and leaves
length 0.  The boundary byte 222 still decodes by the claimed formula
(to 8127 with second byte 255). -/
theorem header_new_two_octet_c3 :
    Header.parse [194, 223, 0] = Except.ok ⟨1, Format.new, Tag.Signature, 0, 0⟩
    ∧ Header.parse [194, 222, 255] = Except.ok ⟨1, Format.new, Tag.Signature, 0, 8127⟩
    ∧ (223 - 192) * 256 + 0 + 192 = 8128
    ∧ (0 : Nat) ≠ 8128 :=
  ⟨rfl, rfl, by decide, by decide⟩

/-- Claim C4 (code_bug evaluation): for a new-format header of length
8384 the claim requires the marker byte `0xFF` (255) after the tag byte,
then the 4-byte big-endian length.  The source writes the literal
`b'x\FF'`, which is the four bytes `0x78 0x5C 0x46 0x46`, so the emitted
header is `C2 78 5C 46 46 00 00 20 C0` instead of `C2 FF 00 00 20 C0`. -/
theorem header_new_five_octet_encode_c4 :
    (Header.toBytes ⟨1, Format.new, Tag.Signature, 0, 8384⟩).2
      = [194, 120, 92, 70, 70, 0, 0, 32, 192]
    ∧ (Header.toBytes ⟨1, Format.new, Tag.Signature, 0, 8384⟩).2
        ≠ 194 :: 255 :: int_to_bytes 8384 4 :=
  ⟨rfl, by decide⟩

/-- Claim C5 (code_bug evaluation): for a new-format header buffer whose
first length byte is in the partial-body range [224, 254] the claim
requires `Header.parse` to fail with a FormatError.  The code has no
such check: with first length byte 224 (and 254) it returns a header
normally, with the length silently left at the constructor default 0. -/
theorem header_partial_length_c5 :
    Header.parse [194, 224] = Except.ok ⟨1, Format.new, Tag.Signature, 0, 0⟩
    ∧ Header.parse [194, 254] = Except.ok ⟨1, Format.new, Tag.Signature, 0, 0⟩ :=
  ⟨rfl, rfl⟩

/-- Claim C6 (code_bug evaluation): the old-format auto-widening loop.
The claimed boundary cases hold (length 255 leaves lengthType 0, 256
promotes to 1, 65536 promotes to 2), but the loop's guard tests whether
the length fits in `lengthType + 1` bytes rather than in the field
widths 1/2/4 documented for lengthType 0/1/2, so length `2^24` —
which fits the 4-byte field of lengthType 2 (it is below `256^4`) — is
promoted all the way to lengthType 3, the no-length-field encoding,
contradicting the claim that widening stops once the length fits. -/
theorem header_old_widening_c6 :
    (Header.toBytes ⟨1, Format.old, Tag.Signature, 0, 255⟩).1.length_type = 0
    ∧ (Header.toBytes ⟨1, Format.old, Tag.Signature, 0, 256⟩).1.length_type = 1
    ∧ (Header.toBytes ⟨1, Format.old, Tag.Signature, 0, 65536⟩).1.length_type = 2
    ∧ (Header.toBytes ⟨1, Format.old, Tag.Signature, 0, 16777216⟩).1.length_type = 3
    ∧ 16777216 < 256 ^ 4 :=
  ⟨rfl, rfl, rfl, rfl, by norm_num⟩

/-- Claim C7: container round-trip.  For every `SubPackets` container
whose records are well-formed (stored size consistent with the payload
and a one-octet length prefix), whose `length` satisfies the container
invariant `length = 2 + sum of record sizes`, and whose 2-byte prefix is
representable (`length - 2 < 65536`), encoding with
`SubPackets.__bytes__` and decoding with `SubPackets.parse` terminates
and yields the same `length` and the identical ordered record list
(hence the same record count and type sequence). -/
theorem subpackets_roundtrip_c7 (c : SubPackets)
    (hwf : c.subpackets.all SubPacket.wfb = true)
    (hlen : c.length = 2 + (c.subpackets.map SubPacket.length).sum)
    (hmax : c.length - 2 < 65536) :
    SubPackets.parse (SubPackets.toBytes c) = some ⟨c.length, false, c.subpackets⟩ := by
  have hwf' : ∀ sp ∈ c.subpackets, sp.wfb = true := by simpa using hwf
  have hlen2 : c.length - 2 < 256 ^ 2 := by
    have h65536 : (256 : Nat) ^ 2 = 65536 := by norm_num
    omega
  have hP : (int_to_bytes (c.length - 2) 2).length = 2 := int_to_bytes_length _ _ hlen2
  have hsum : ((c.subpackets.map SubPacket.toBytes).flatten).length
      = (c.subpackets.map SubPacket.length).sum := flatten_toBytes_length _ hwf'
  simp only [SubPackets.parse, SubPackets.toBytes]
  rw [List.take_left' hP, int_to_bytes_sound]
  have hLL : c.length - 2 + 2 = c.length := by omega
  rw [hLL]
  have hfull : (int_to_bytes (c.length - 2) 2
        ++ (c.subpackets.map SubPacket.toBytes).flatten).take c.length
      = int_to_bytes (c.length - 2) 2 ++ (c.subpackets.map SubPacket.toBytes).flatten := by
    apply List.take_of_length_le
    rw [List.length_append, hP, hsum]
    omega
  rw [hfull]
  rw [spLoop_parse_concat c.subpackets _ c.length 2 [] c.length hwf'
    (List.drop_left' hP) hlen (le_trans (count_le_sum _ hwf') (by omega))]
  simp

/-- Claim C7 witness: a concrete two-record container (an Issuer-style
record with a one-byte payload and an empty record) satisfying the
hypotheses, on which encode-then-decode reproduces the container. -/
theorem subpackets_roundtrip_c7_witness :
    (([⟨3, 16, [171]⟩, ⟨2, 2, []⟩] : List SubPacket).all SubPacket.wfb = true)
    ∧ (7 : Nat) = 2 + (([⟨3, 16, [171]⟩, ⟨2, 2, []⟩] : List SubPacket).map SubPacket.length).sum
    ∧ (7 : Nat) - 2 < 65536
    ∧ SubPackets.parse (SubPackets.toBytes ⟨7, false, [⟨3, 16, [171]⟩, ⟨2, 2, []⟩]⟩)
        = some ⟨7, false, [⟨3, 16, [171]⟩, ⟨2, 2, []⟩]⟩ :=
  ⟨by decide, by decide, by decide,
    subpackets_roundtrip_c7 ⟨7, false, [⟨3, 16, [171]⟩, ⟨2, 2, []⟩]⟩
      (by decide) (by decide) (by decide)⟩

/-- Claim C8 (code_bug evaluation): the container decode loop contains
no overrun check.  On the buffer `00 03 04 07 AA` the 2-byte prefix
declares a 3-byte record region (container region ends at offset 5),
but the record at offset 2 reports a consumed size of 5 bytes, so the
loop position jumps from 2 to 7, strictly past the declared end.
`SubPackets.parse` raises nothing: it returns the container with the
overrunning record included, where the claim requires a FormatError. -/
theorem subpackets_overrun_c8 :
    SubPackets.parse [0, 3, 4, 7, 170] = some ⟨5, false, [⟨5, 7, [170]⟩]⟩
    ∧ 5 < 2 + (⟨5, 7, [170]⟩ : SubPacket).length :=
  ⟨rfl, by decide⟩

/-- Claim C9: for every input buffer whose first byte has bit 7 clear
(for a byte value, `b0 < 128`), `Header.parse` fails with the malformed
tag error and produces no header. -/
theorem header_malformed_tag_c9 (packet : List Nat) (b0 : Nat)
    (hhead : packet.head? = some b0) (hb : b0 < 128) :
    Header.parse packet = Except.error ParseError.malformedTag := by
  cases packet with
  | nil => simp at hhead
  | cons x xs =>
    have hx : x = b0 := by simpa using hhead
    subst hx
    have h1 : bytes_to_int [x] = x := by
      simp [bytes_to_int]
    have h7 : x >>> 7 = 0 := by
      rw [Nat.shiftRight_eq_div_pow]
      exact Nat.div_eq_of_lt hb
    simp [Header.parse, h1, h7]

/-- Claim C9 witness: the buffer starting with byte `0x42` (bit 7 clear)
is rejected with the malformed tag error. -/
theorem header_malformed_tag_c9_witness :
    Header.parse [66, 1, 2] = Except.error ParseError.malformedTag :=
  header_malformed_tag_c9 [66, 1, 2] 66 rfl (by decide)

/-- Claim C10: termination behaviour of the container decode loop.
First, if the record decoder reports a zero-length record at a position
inside the declared region, the loop position never advances and the
loop completes for no amount of fuel (the Python `while` loop never
terminates).  Second, if every decoded record consumes at least one
byte, the loop terminates within `limit - pos` steps; in particular
`SubPackets.parse` with the concrete record decoder (whose records
always occupy at least one byte) is total. -/
theorem subpackets_loop_termination_c10 :
    (∀ (d : List Nat → SubPacket) (packet : List Nat) (limit pos : Nat),
        pos < limit → (d (packet.drop pos)).length = 0 →
        ∀ (acc : List SubPacket) (fuel : Nat), spLoop d packet limit pos acc fuel = none)
    ∧ (∀ (d : List Nat → SubPacket), (∀ s, 1 ≤ (d s).length) →
        ∀ (packet : List Nat) (limit fuel pos : Nat) (acc : List SubPacket),
        limit - pos ≤ fuel → (spLoop d packet limit pos acc fuel).isSome = true)
    ∧ (∀ packet : List Nat, (SubPackets.parse packet).isSome = true) := by
  refine ⟨fun d packet limit pos hlt hz acc fuel => spLoop_stuck d packet limit pos hlt hz acc fuel,
    fun d hd packet limit fuel pos acc h => spLoop_total d hd packet limit fuel pos acc h,
    fun packet => ?_⟩
  simp only [SubPackets.parse, Option.isSome_map']
  exact spLoop_total SubPacket.parse
    (fun s => by simp only [SubPacket.parse]; omega) _ _ _ _ _ (by omega)

/-- Claim C10 witness: with the always-zero-length decoder stub the loop
yields no result even with ample fuel; with the one-byte decoder stub it
terminates; and the concrete `SubPackets.parse` is total on a sample
buffer. -/
theorem subpackets_loop_termination_c10_witness :
    spLoop zeroRecDec [0, 5] 5 2 [] 100 = none
    ∧ (spLoop oneRecDec [0, 5] 5 2 [] 3).isSome = true
    ∧ (SubPackets.parse [0, 1, 9]).isSome = true :=
  ⟨subpackets_loop_termination_c10.1 zeroRecDec [0, 5] 5 2 (by decide) rfl [] 100,
    subpackets_loop_termination_c10.2.1 oneRecDec (fun _ => Nat.le_refl 1) [0, 5] 5 3 2 []
      (by decide),
    subpackets_loop_termination_c10.2.2 [0, 1, 9]⟩

end PGPy
